import Mathlib

/-!
Shallow embedding of the `nure_tools_rs` client library (a synchronous client
for a university scheduling API) together with a verification of its
specification claims.  Pure functions of the Rust source are translated to
Lean functions; the network transport, the `serde_json` tree, the `regex`
engine, the `dateparser` crate and the timezone database are external
collaborators of the library and are modelled from their interfaces where
noted.  Rust panics (from `Option::unwrap`) are made explicit as an error
constructor, and fallible Rust functions returning `anyhow::Result` become
`Except`.
-/

deriving instance DecidableEq for Except

namespace NureTools

/-- Unicode simple lowercase mapping, as performed by Rust
`str::to_lowercase`, restricted to the ASCII and Cyrillic ranges that the
library's data (group/teacher/room names) uses; characters outside these
ranges are left unchanged.  `A`-`Z` and Cyrillic `А`-`Я` (U+0410-U+042F) map
by +32, the Cyrillic extensions U+0400-U+040F (such as Ukrainian `І`) map by
+80, matching the Unicode simple case folding table. -/
def toLowerChar (c : Char) : Char :=
  if 65 ≤ c.toNat ∧ c.toNat ≤ 90 then Char.ofNat (c.toNat + 32)
  else if 1040 ≤ c.toNat ∧ c.toNat ≤ 1071 then Char.ofNat (c.toNat + 32)
  else if 1024 ≤ c.toNat ∧ c.toNat ≤ 1039 then Char.ofNat (c.toNat + 80)
  else c

/-- Rust `str::to_lowercase`, modelled characterwise via `toLowerChar`. -/
def rustToLowercase (s : String) : String :=
  String.mk (s.data.map toLowerChar)

theorem toNat_charOfNat {n : Nat} (h : n.isValidChar) :
    (Char.ofNat n).toNat = n := by
  unfold Char.ofNat
  rw [dif_pos h]
  rfl

theorem isValidChar_of_lt {n : Nat} (h : n < 55296) : n.isValidChar :=
  Or.inl h

theorem toNat_toLowerChar_of_upper {c : Char}
    (h : 65 ≤ c.toNat ∧ c.toNat ≤ 90) :
    (toLowerChar c).toNat = c.toNat + 32 := by
  unfold toLowerChar
  rw [if_pos h]
  exact toNat_charOfNat (isValidChar_of_lt (by omega))

theorem toNat_toLowerChar_of_cyr {c : Char}
    (h1 : ¬ (65 ≤ c.toNat ∧ c.toNat ≤ 90))
    (h : 1040 ≤ c.toNat ∧ c.toNat ≤ 1071) :
    (toLowerChar c).toNat = c.toNat + 32 := by
  unfold toLowerChar
  rw [if_neg h1, if_pos h]
  exact toNat_charOfNat (isValidChar_of_lt (by omega))

theorem toNat_toLowerChar_of_cyrExt {c : Char}
    (h1 : ¬ (65 ≤ c.toNat ∧ c.toNat ≤ 90))
    (h2 : ¬ (1040 ≤ c.toNat ∧ c.toNat ≤ 1071))
    (h : 1024 ≤ c.toNat ∧ c.toNat ≤ 1039) :
    (toLowerChar c).toNat = c.toNat + 80 := by
  unfold toLowerChar
  rw [if_neg h1, if_neg h2, if_pos h]
  exact toNat_charOfNat (isValidChar_of_lt (by omega))

theorem toLowerChar_of_outside {c : Char}
    (h1 : ¬ (65 ≤ c.toNat ∧ c.toNat ≤ 90))
    (h2 : ¬ (1040 ≤ c.toNat ∧ c.toNat ≤ 1071))
    (h3 : ¬ (1024 ≤ c.toNat ∧ c.toNat ≤ 1039)) :
    toLowerChar c = c := by
  unfold toLowerChar
  rw [if_neg h1, if_neg h2, if_neg h3]

/-- Lowercasing is idempotent (characterwise). -/
theorem toLowerChar_idem (c : Char) : toLowerChar (toLowerChar c) = toLowerChar c := by
  by_cases h1 : 65 ≤ c.toNat ∧ c.toNat ≤ 90
  · have hv := toNat_toLowerChar_of_upper h1
    exact toLowerChar_of_outside (by omega) (by omega) (by omega)
  · by_cases h2 : 1040 ≤ c.toNat ∧ c.toNat ≤ 1071
    · have hv := toNat_toLowerChar_of_cyr h1 h2
      exact toLowerChar_of_outside (by omega) (by omega) (by omega)
    · by_cases h3 : 1024 ≤ c.toNat ∧ c.toNat ≤ 1039
      · have hv := toNat_toLowerChar_of_cyrExt h1 h2 h3
        exact toLowerChar_of_outside (by omega) (by omega) (by omega)
      · rw [toLowerChar_of_outside h1 h2 h3, toLowerChar_of_outside h1 h2 h3]

/-- Lowercasing a character yields a given non-letter character (one whose
codepoint is below the Cyrillic block and outside both ASCII letter ranges,
such as any regex metacharacter) exactly when the character already was it. -/
theorem toLowerChar_eq_iff {c m : Char}
    (hm : m.toNat < 1024 ∧ ¬ (65 ≤ m.toNat ∧ m.toNat ≤ 90) ∧
      ¬ (97 ≤ m.toNat ∧ m.toNat ≤ 122)) :
    toLowerChar c = m ↔ c = m := by
  constructor
  · intro he
    have hv : (toLowerChar c).toNat = m.toNat := congrArg Char.toNat he
    by_cases h1 : 65 ≤ c.toNat ∧ c.toNat ≤ 90
    · have := toNat_toLowerChar_of_upper h1
      omega
    · by_cases h2 : 1040 ≤ c.toNat ∧ c.toNat ≤ 1071
      · have := toNat_toLowerChar_of_cyr h1 h2
        omega
      · by_cases h3 : 1024 ≤ c.toNat ∧ c.toNat ≤ 1039
        · have := toNat_toLowerChar_of_cyrExt h1 h2 h3
          omega
        · rw [toLowerChar_of_outside h1 h2 h3] at he
          exact he
  · intro he
    subst he
    exact toLowerChar_of_outside (by omega) (by omega) (by omega)

/-- The `serde_json::Value` tree.  A JSON number is carried through its
`as_i64` view: `num (some n)` is a number representable as a signed 64-bit
integer and `num none` one that is not (a float, or an unsigned value above
`i64::MAX`), which is exactly the distinction the library's decoders make. -/
inductive Json where
  | null : Json
  | bool (b : Bool) : Json
  | num (asI64 : Option Int) : Json
  | str (s : String) : Json
  | arr (elems : List Json) : Json
  | obj (fields : List (String × Json)) : Json

/-- Lookup in a `serde_json::Map` (`Map::get`); keys of a parsed JSON object
are unique, so association-list lookup is faithful. -/
def jGet (fields : List (String × Json)) (key : String) : Option Json :=
  match fields with
  | [] => none
  | (k, v) :: rest => if k = key then some v else jGet rest key

/-- Whether a JSON value is an object (`Value::Object`). -/
def isObjB : Json → Bool
  | .obj _ => true
  | _ => false

/-- Rust `as i32` narrowing cast (two's-complement wraparound). -/
def toI32 (n : Int) : Int :=
  (n + 2147483648).emod 4294967296 - 2147483648

/-- Rust `as u8` narrowing cast. -/
def toU8 (n : Int) : Int :=
  n.emod 256

/-- The `Group` record of `groups.rs` (`id: i32`, `name: String`). -/
structure Group where
  id : Int
  name : String
deriving DecidableEq

/-- The `Teacher` record of `teachers.rs`. -/
structure Teacher where
  id : Int
  short_name : String
  full_name : String
deriving DecidableEq

/-- The `LectureRoom` record of `lecture_rooms.rs`. -/
structure LectureRoom where
  id : Int
  name : String
deriving DecidableEq

/-- The `Subject` record of `schedule.rs`; `Subject.default` is
`{brief: "", id: 0, title: ""}` (the derived `Default`). -/
structure Subject where
  brief : String
  id : Int
  title : String
deriving DecidableEq

/-- Rust's derived `Subject::default()`. -/
def Subject.default : Subject :=
  ⟨"", 0, ""⟩

/-- The `RequestError` enum of `errors.rs`. -/
inductive RequestError where
  | GetFailed : RequestError
  | NotJson : RequestError
  | InvalidReturn : RequestError
  | BadResponse (reason : String) (status : Nat) : RequestError
deriving DecidableEq

/-- The `FindError` enum of `errors.rs`. -/
inductive FindError where
  | InvalidGroupName (s : String) : FindError
  | InvalidLectureRoomName (s : String) : FindError
  | InvalidTeacherName (s : String) : FindError
  | InvalidRegexString (s : String) : FindError
deriving DecidableEq

/-- The `ParseError` enum of `errors.rs`. -/
inductive ParseError where
  | InvalidStringProvided (s : String) : ParseError
  | InvalidTimestampProvided (s : String) : ParseError
deriving DecidableEq

/-- The accumulator loop of `parse_group_json` (`groups.rs` lines 13-32):
the locals `id`/`name` are declared once, mutated per iteration when the
field is present with the matching variant, and cloned into a fresh `Group`
for every object element; non-object elements are skipped. -/
def parseGroupLoop (id : Int) (name : String) : List Json → List Group
  | [] => []
  | .obj m :: rest =>
    let id' := match jGet m "id" with
      | some (.num o) => toI32 (o.getD 0)
      | _ => id
    let name' := match jGet m "name" with
      | some (.str st) => st
      | _ => name
    ⟨id', name'⟩ :: parseGroupLoop id' name' rest
  | _ :: rest => parseGroupLoop id name rest

/-- `parse_group_json` of `groups.rs`: starts the accumulators at
`0` / `""`. -/
def parse_group_json (vector : List Json) : List Group :=
  parseGroupLoop 0 "" vector

/-- The accumulator loop of `parse_teacher_json` (`teachers.rs` lines
13-36), with fields `id`, `shortName`, `fullName`. -/
def parseTeacherLoop (id : Int) (short_name long_name : String) :
    List Json → List Teacher
  | [] => []
  | .obj m :: rest =>
    let id' := match jGet m "id" with
      | some (.num o) => toI32 (o.getD 0)
      | _ => id
    let short' := match jGet m "shortName" with
      | some (.str st) => st
      | _ => short_name
    let long' := match jGet m "fullName" with
      | some (.str st) => st
      | _ => long_name
    ⟨id', short', long'⟩ :: parseTeacherLoop id' short' long' rest
  | _ :: rest => parseTeacherLoop id short_name long_name rest

/-- `parse_teacher_json` of `teachers.rs`. -/
def parse_teacher_json (vector : List Json) : List Teacher :=
  parseTeacherLoop 0 "" "" vector

/-- Whether a year is a Gregorian leap year. -/
def isLeap (y : Int) : Bool :=
  (y.emod 4 == 0 && y.emod 100 != 0) || y.emod 400 == 0

/-- Number of days of a month of the proleptic Gregorian calendar. -/
def daysInMonth (y m : Int) : Int :=
  if m = 2 then (if isLeap y then 29 else 28)
  else if m = 4 ∨ m = 6 ∨ m = 9 ∨ m = 11 then 30
  else 31

/-- Days since the Unix epoch of a civil date (Howard Hinnant's
`days_from_civil` algorithm, as used by `chrono`). -/
def daysFromCivil (y m d : Int) : Int :=
  let y' := if m ≤ 2 then y - 1 else y
  let era := y'.fdiv 400
  let yoe := y' - era * 400
  let mp := if 2 < m then m - 3 else m + 9
  let doy := (153 * mp + 2).fdiv 5 + d - 1
  let doe := yoe * 365 + yoe.fdiv 4 - yoe.fdiv 100 + doy
  era * 146097 + doe - 719468

/-- Civil date `(year, month, day)` of a count of days since the Unix epoch
(Howard Hinnant's `civil_from_days` algorithm). -/
def civilFromDays (z : Int) : Int × Int × Int :=
  let z' := z + 719468
  let era := z'.fdiv 146097
  let doe := z' - era * 146097
  let yoe := (doe - doe.fdiv 1460 + doe.fdiv 36524 - doe.fdiv 146096).fdiv 365
  let y := yoe + era * 400
  let doy := doe - (365 * yoe + yoe.fdiv 4 - yoe.fdiv 100)
  let mp := (5 * doy + 2).fdiv 153
  let d := doy - (153 * mp + 2).fdiv 5 + 1
  let m := if mp < 10 then mp + 3 else mp - 9
  (if m ≤ 2 then y + 1 else y, m, d)

/-- Day of month of the last Sunday of a month (day 0 of the epoch,
1970-01-01, was a Thursday). -/
def lastSundayDom (y m : Int) : Int :=
  let last := daysInMonth y m
  last - (daysFromCivil y m last + 4).emod 7

/-- Modelled from the spec: the timezone-database collaborator for the fixed
Eastern European timezone (`chrono_tz::Europe__Kiev`).  UTC offset in
seconds at a UTC instant: UTC+2 (EET) in standard time and UTC+3 (EEST)
during EU daylight-saving time, which runs from 01:00 UTC on the last Sunday
of March to 01:00 UTC on the last Sunday of October. -/
def kievOffset (e : Int) : Int :=
  let day := e.fdiv 86400
  let y := (civilFromDays day).1
  let dstStart := daysFromCivil y 3 (lastSundayDom y 3) * 86400 + 3600
  let dstEnd := daysFromCivil y 10 (lastSundayDom y 10) * 86400 + 3600
  if dstStart ≤ e ∧ e < dstEnd then 10800 else 7200

/-- UTC instant (epoch seconds) of a Kiev-local wall-clock second count,
resolving the offset by trying daylight-saving time first. -/
def utcOfKievLocalSec (l : Int) : Int :=
  if kievOffset (l - 10800) = 10800 then l - 10800 else l - 7200

/-- Timezone tags appearing in the library: `chrono::Utc` (what the date
parser returns) and `chrono_tz::Europe__Kiev` (what every `Period`
constructor normalizes to). -/
inductive Tz where
  | utc : Tz
  | europeKiev : Tz
deriving DecidableEq

/-- A `chrono::DateTime<Tz>`: an absolute instant (milliseconds since the
Unix epoch; the sub-second precision the spec states) tagged with the
timezone used for its calendar view.  `with_timezone` changes only the
tag. -/
structure DateTimeTz where
  epochMillis : Int
  tz : Tz
deriving DecidableEq

/-- `DateTime::with_timezone`: same instant, different calendar view. -/
def withTimezone (dt : DateTimeTz) (tz : Tz) : DateTimeTz :=
  { dt with tz := tz }

/-- UTC offset (seconds) of a tagged instant. -/
def tzOffset : Tz → Int → Int
  | .utc, _ => 0
  | .europeKiev, e => kievOffset e

/-- UTC epoch seconds of a local wall-clock second count in a timezone. -/
def utcOfLocalSec : Tz → Int → Int
  | .utc, l => l
  | .europeKiev, l => utcOfKievLocalSec l

/-- Modelled from the spec: `beginning_of_day` of the `now` collaborator
crate — same local calendar date, local time `00:00:00.000`. -/
def beginningOfDay (dt : DateTimeTz) : DateTimeTz :=
  let es := dt.epochMillis.fdiv 1000
  let localDay := (es + tzOffset dt.tz es).fdiv 86400
  ⟨utcOfLocalSec dt.tz (localDay * 86400) * 1000, dt.tz⟩

/-- Modelled from the spec: `end_of_day` of the `now` collaborator crate —
same local calendar date, local time `23:59:59.999` (the spec's stated
sub-second precision). -/
def endOfDay (dt : DateTimeTz) : DateTimeTz :=
  let es := dt.epochMillis.fdiv 1000
  let localDay := (es + tzOffset dt.tz es).fdiv 86400
  ⟨utcOfLocalSec dt.tz (localDay * 86400 + 86399) * 1000 + 999, dt.tz⟩

/-- Civil view `(year, month, day, hour, minute, second, millisecond)` of a
tagged instant in its own timezone. -/
def civilView (dt : DateTimeTz) : Int × Int × Int × Int × Int × Int × Int :=
  let es := dt.epochMillis.fdiv 1000
  let ms := dt.epochMillis.fmod 1000
  let loc := es + tzOffset dt.tz es
  let day := loc.fdiv 86400
  let sid := loc.fmod 86400
  let c := civilFromDays day
  (c.1, c.2.1, c.2.2, sid.fdiv 3600, (sid.fmod 3600).fdiv 60, sid.fmod 60, ms)

/-- Numeric value of a decimal digit character. -/
def digitVal (c : Char) : Int :=
  Int.ofNat c.toNat - 48

/-- Value of a string of decimal digits. -/
def digitsToNat (cs : List Char) : Nat :=
  cs.foldl (fun acc c => acc * 10 + (c.toNat - 48)) 0

/-- Modelled from the spec: the external `dateparser` collaborator
(`dateparser::parse`), restricted to the two input shapes the verified
claims exercise, per spec sections 4.4 and 6: a unix-epoch number in seconds
(10 decimal digits) or milliseconds (13 decimal digits), and a date-only
string `YYYY-MM-DD`, which the spec states denotes that calendar day of the
fixed Eastern European timezone.  Everything else is a parse failure.  The
result carries the `Utc` tag, as `dateparser` returns `DateTime<Utc>`. -/
def dateparserParse (s : String) : Option DateTimeTz :=
  let cs := s.data
  if cs.length = 10 ∧ cs.all Char.isDigit then
    some ⟨(digitsToNat cs : Int) * 1000, .utc⟩
  else if cs.length = 13 ∧ cs.all Char.isDigit then
    some ⟨(digitsToNat cs : Int), .utc⟩
  else
    match cs with
    | [y1, y2, y3, y4, '-', m1, m2, '-', d1, d2] =>
      if (y1.isDigit && y2.isDigit && y3.isDigit && y4.isDigit &&
          m1.isDigit && m2.isDigit && d1.isDigit && d2.isDigit) then
        let y := digitVal y1 * 1000 + digitVal y2 * 100 + digitVal y3 * 10 +
          digitVal y4
        let m := digitVal m1 * 10 + digitVal m2
        let d := digitVal d1 * 10 + digitVal d2
        if 1 ≤ m ∧ m ≤ 12 ∧ 1 ≤ d ∧ d ≤ daysInMonth y m then
          some ⟨utcOfKievLocalSec (daysFromCivil y m d * 86400) * 1000, .utc⟩
        else none
      else none
    | _ => none

/-- The `Period` struct of `utils.rs`. -/
structure Period where
  start_time : DateTimeTz
  end_time : DateTimeTz
deriving DecidableEq

/-- `Period::from_timestamp` (`utils.rs` lines 83-107): renders each `i64`
to its decimal string, feeds it to the date parser and normalizes the result
to `Europe__Kiev`; a side that fails to parse yields
`ParseError::InvalidTimestampProvided` carrying that string. -/
def Period.from_timestamp (start_time_i64 end_time_i64 : Int) :
    Except ParseError Period :=
  let startStr := toString start_time_i64
  let endStr := toString end_time_i64
  match dateparserParse startStr with
  | none => .error (.InvalidTimestampProvided startStr)
  | some ps =>
    match dateparserParse endStr with
    | none => .error (.InvalidTimestampProvided endStr)
    | some pe =>
      .ok ⟨withTimezone ps .europeKiev, withTimezone pe .europeKiev⟩

/-- `Period::day_from` (`utils.rs` lines 200-217): parses the string,
normalizes to `Europe__Kiev`, and takes that day's beginning and end; a
parse failure yields `ParseError::InvalidStringProvided`. -/
def Period.day_from (start_time_str : String) : Except ParseError Period :=
  match dateparserParse start_time_str with
  | none => .error (.InvalidStringProvided start_time_str)
  | some parsed =>
    let parsed_date := withTimezone parsed .europeKiev
    .ok ⟨beginningOfDay parsed_date, endOfDay parsed_date⟩

/-- Regular-expression abstract syntax for the modelled fragment of the
`regex` collaborator crate. -/
inductive Rx where
  | emp : Rx
  | eps : Rx
  | lit (c : Char) : Rx
  | dot : Rx
  | alt (a b : Rx) : Rx
  | cat (a b : Rx) : Rx
  | star (a : Rx) : Rx
deriving DecidableEq

/-- Tokens of the modelled regex surface syntax. -/
inductive Tok where
  | lparen : Tok
  | rparen : Tok
  | bar : Tok
  | star : Tok
  | plus : Tok
  | quest : Tok
  | dot : Tok
  | lit (c : Char) : Tok
deriving DecidableEq

/-- Token of a single unescaped pattern character. -/
def tokOf (c : Char) : Tok :=
  if c = '(' then .lparen
  else if c = ')' then .rparen
  else if c = '|' then .bar
  else if c = '*' then .star
  else if c = '+' then .plus
  else if c = '?' then .quest
  else if c = '.' then .dot
  else .lit c

/-- Tokenizer of the modelled regex fragment: a backslash escapes the next
character into a literal (a trailing backslash is a syntax error), the seven
metacharacters become operator tokens and everything else is a literal.
Fuel-indexed for structural recursion; `fuel > length` always suffices. -/
def tokenizeRx (fuel : Nat) (l : List Char) : Option (List Tok) :=
  match fuel with
  | 0 => none
  | fuel + 1 =>
    match l with
    | [] => some []
    | c :: rest =>
      if c = '\\' then
        match rest with
        | [] => none
        | d :: rest2 => (tokenizeRx fuel rest2).map (Tok.lit d :: ·)
      else
        (tokenizeRx fuel rest).map (tokOf c :: ·)

/-- Optional lazy-quantifier marker after a repetition operator. -/
def lazyOpt (r : Rx) (ts : List Tok) : Rx × List Tok :=
  match ts with
  | .quest :: rest => (r, rest)
  | _ => (r, ts)

/-- Applies at most one repetition operator (with an optional lazy marker)
to a parsed atom; a second repetition operator is left in the stream, where
the grammar then rejects it, as the `regex` crate does for `a**`. -/
def applyQuants (r : Rx) (ts : List Tok) : Rx × List Tok :=
  match ts with
  | .star :: rest => lazyOpt (.star r) rest
  | .plus :: rest => lazyOpt (.cat r (.star r)) rest
  | .quest :: rest => lazyOpt (.alt r .eps) rest
  | _ => (r, ts)

/-- Grammar nonterminals of the modelled regex fragment: alternation,
concatenation (possibly empty), and a single quantified atom. -/
inductive PMode where
  | alt : PMode
  | cat : PMode
  | rep : PMode

/-- Recursive-descent parsing of the modelled regex fragment, fuel-indexed.
An alternation is a `|`-separated list of concatenations; a concatenation is
a possibly empty run of quantified atoms; an atom is a literal, `.`, or a
parenthesised alternation.  A quantifier with no preceding atom, an
unmatched parenthesis, or fuel exhaustion parses to `none`. -/
def parseRx (fuel : Nat) (mode : PMode) (ts : List Tok) :
    Option (Rx × List Tok) :=
  match fuel with
  | 0 => none
  | fuel + 1 =>
    match mode with
    | .alt =>
      match parseRx fuel .cat ts with
      | none => none
      | some (r, ts1) =>
        match ts1 with
        | .bar :: rest =>
          match parseRx fuel .alt rest with
          | none => none
          | some (r2, ts2) => some (.alt r r2, ts2)
        | _ => some (r, ts1)
    | .cat =>
      match ts with
      | [] => some (.eps, [])
      | .rparen :: _ => some (.eps, ts)
      | .bar :: _ => some (.eps, ts)
      | _ =>
        match parseRx fuel .rep ts with
        | none => none
        | some (r, ts1) =>
          match parseRx fuel .cat ts1 with
          | none => none
          | some (r2, ts2) => some (.cat r r2, ts2)
    | .rep =>
      match ts with
      | .lit c :: rest => some (applyQuants (.lit c) rest)
      | .dot :: rest => some (applyQuants .dot rest)
      | .lparen :: rest =>
        match parseRx fuel .alt rest with
        | none => none
        | some (r, ts1) =>
          match ts1 with
          | .rparen :: rest2 => some (applyQuants r rest2)
          | _ => none
      | _ => none

/-- Modelled from the spec: `Regex::new` of the external `regex`
collaborator, on the fragment above — `none` is a compilation error. -/
def regexCompile (s : String) : Option Rx :=
  match tokenizeRx (s.data.length + 1) s.data with
  | none => none
  | some toks =>
    match parseRx (toks.length * 3 + 3) .alt toks with
    | some (r, []) => some r
    | _ => none

/-- Whether a regex accepts the empty string. -/
def nullable : Rx → Bool
  | .emp => false
  | .eps => true
  | .lit _ => false
  | .dot => false
  | .alt a b => nullable a || nullable b
  | .cat a b => nullable a && nullable b
  | .star _ => true

/-- Brzozowski derivative of a regex by a character (`.` matches every
character except a newline, the `regex` crate's default). -/
def rxDeriv (c : Char) : Rx → Rx
  | .emp => .emp
  | .eps => .emp
  | .lit d => if d = c then .eps else .emp
  | .dot => if c = '\n' then .emp else .eps
  | .alt a b => .alt (rxDeriv c a) (rxDeriv c b)
  | .cat a b =>
    if nullable a then .alt (.cat (rxDeriv c a) b) (rxDeriv c b)
    else .cat (rxDeriv c a) b
  | .star a => .cat (rxDeriv c a) (.star a)

/-- Whether the regex matches some prefix of the character list. -/
def matchesSomePre (r : Rx) : List Char → Bool
  | [] => nullable r
  | c :: rest => nullable r || matchesSomePre (rxDeriv c r) rest

/-- `Regex::find(...).is_some()`: whether the regex matches anywhere inside
the character list (some substring, i.e. some prefix of some suffix). -/
def containsMatch (r : Rx) (l : List Char) : Bool :=
  matchesSomePre r l ||
    match l with
    | [] => false
    | _ :: rest => containsMatch r rest

/-- `find` of `utils.rs` (lines 340-351): lower-cases the needle, compiles
it as a regex — failing with `FindError::InvalidRegexString` carrying the
original needle — and reports whether it matches anywhere in the lower-cased
haystack. -/
def find (find_it search_here : String) : Except FindError Bool :=
  match regexCompile (rustToLowercase find_it) with
  | none => .error (.InvalidRegexString find_it)
  | some regex => .ok (containsMatch regex (rustToLowercase search_here).data)

/-- Modelled from the spec: canonical HTTP reason phrases
(`StatusCode::canonical_reason` of the `http` collaborator crate), given for
the statuses the spec names; statuses without a registered phrase yield
`none`. -/
def canonicalReason (status : Nat) : Option String :=
  if status = 200 then some "OK"
  else if status = 400 then some "Bad Request"
  else if status = 404 then some "Not Found"
  else if status = 500 then some "Internal Server Error"
  else none

/-- Outcome of the blocking HTTP GET collaborator
(`reqwest::Result<Response>`): either a transport failure or a response with
a numeric status and a body; `value.json()` on the body is modelled by an
`Option Json` (`none` when the body is not valid JSON). -/
inductive GetOutcome where
  | failure : GetOutcome
  | response (status : Nat) (body : Option Json) : GetOutcome

/-- `get_wrapper` of `utils.rs` (lines 362-377): a transport error becomes
`GetFailed`; a non-200 status becomes `BadResponse` with the canonical
reason phrase (empty when unknown, per `unwrap_or("")`) and the code; a 200
body that is not JSON becomes `NotJson`; otherwise the decoded value is
returned. -/
def get_wrapper (get_response : GetOutcome) : Except RequestError Json :=
  match get_response with
  | .response status body =>
    if status = 200 then
      match body with
      | some value => .ok value
      | none => .error .NotJson
    else
      .error (.BadResponse ((canonicalReason status).getD "") status)
  | .failure => .error .GetFailed

/-- The filtering loop of `find_group` (`groups.rs` lines 94-100): keeps the
groups whose name the needle `find`-matches, propagating a `find` failure. -/
def findGroupLoop (name : String) : List Group → Except FindError (List Group)
  | [] => .ok []
  | group :: rest =>
    match find name group.name with
    | .error e => .error e
    | .ok true => (findGroupLoop name rest).map (group :: ·)
    | .ok false => findGroupLoop name rest

/-- The pure core of `find_group` (`groups.rs` lines 90-107), applied to the
already-fetched group list (the network fetch is the out-of-scope
transport): filters by `find` and fails with `InvalidGroupName` carrying the
input when nothing matched. -/
def find_group (name : String) (groups : List Group) :
    Except FindError (List Group) :=
  match findGroupLoop name groups with
  | .error e => .error e
  | .ok result =>
    if result.isEmpty then .error (.InvalidGroupName name) else .ok result

/-- The filtering loop of `find_teacher` (`teachers.rs` lines 98-104): the
needle is tested against `teacher.full_name` only. -/
def findTeacherLoop (name : String) :
    List Teacher → Except FindError (List Teacher)
  | [] => .ok []
  | teacher :: rest =>
    match find name teacher.full_name with
    | .error e => .error e
    | .ok true => (findTeacherLoop name rest).map (teacher :: ·)
    | .ok false => findTeacherLoop name rest

/-- The pure core of `find_teacher` (`teachers.rs` lines 94-111), applied to
the already-fetched teacher list. -/
def find_teacher (name : String) (teachers : List Teacher) :
    Except FindError (List Teacher) :=
  match findTeacherLoop name teachers with
  | .error e => .error e
  | .ok result =>
    if result.isEmpty then .error (.InvalidTeacherName name) else .ok result

/-- The pure core of `find_exect_teacher` (`teachers.rs` lines 135-147):
linear scan returning the first teacher whose lower-cased `short_name`
equals the lower-cased input, else `InvalidTeacherName`. -/
def find_exect_teacher (name : String) : List Teacher → Except FindError Teacher
  | [] => .error (.InvalidTeacherName name)
  | teacher :: rest =>
    if rustToLowercase name = rustToLowercase teacher.short_name then .ok teacher
    else find_exect_teacher name rest

/-- The pure core of `find_exect_lecture_room` (`lecture_rooms.rs` lines
135-147): linear scan on lower-cased room names; the no-match arm of the
source (line 146) raises `FindError::InvalidGroupName`, exactly as
written. -/
def find_exect_lecture_room (name : String) :
    List LectureRoom → Except FindError LectureRoom
  | [] => .error (.InvalidGroupName name)
  | room :: rest =>
    if rustToLowercase name = rustToLowercase room.name then .ok room
    else find_exect_lecture_room name rest

/-- The `Lecture` record of `schedule.rs`. -/
structure Lecture where
  lecture_room : String
  period : Period
  number_pair : Int
  lecture_type : String
  teachers : List Teacher
  groups : List Group
  subject : Subject
deriving DecidableEq

/-- How a run of the `get_schedule` decoding loop can fail: `panic` models a
Rust panic (an `unwrap()` of `None`, aborting the process), `parseErr` the
propagated `?` failure of `Period::from_timestamp`, and `invalidReturn` a
top-level value that is not a JSON array. -/
inductive ScheduleFailure where
  | panic : ScheduleFailure
  | parseErr (e : ParseError) : ScheduleFailure
  | invalidReturn : ScheduleFailure
deriving DecidableEq

/-- The statement `if let Value::String(st) = obj.get(k).unwrap() { x = st }`
of the schedule loop: an absent key panics; a present non-string key leaves
the accumulator value. -/
def getFieldStr (o : Option Json) (dflt : String) :
    Except ScheduleFailure String :=
  match o with
  | none => .error .panic
  | some (.str st) => .ok st
  | some _ => .ok dflt

/-- The statement `if let Value::Number(n) = obj.get(k).unwrap()
{ x = n.as_i64().unwrap() }`: an absent key panics, as does a number that is
not representable as `i64`; a present non-number leaves the accumulator. -/
def getFieldI64 (o : Option Json) (dflt : Int) : Except ScheduleFailure Int :=
  match o with
  | none => .error .panic
  | some (.num (some n)) => .ok n
  | some (.num none) => .error .panic
  | some _ => .ok dflt

/-- As `getFieldI64` for `numberPair`, whose value is narrowed by `as u8`:
the cast applies only when a number was read, not to the carried value. -/
def getFieldU8 (o : Option Json) (dflt : Int) : Except ScheduleFailure Int :=
  match o with
  | none => .error .panic
  | some (.num (some n)) => .ok (toU8 n)
  | some (.num none) => .error .panic
  | some _ => .ok dflt

/-- The statement `if let Value::Array(vector) = obj.remove("teachers")
.unwrap() { teachers = parse_teacher_json(vector) }`. -/
def getFieldTeachers (o : Option Json) (dflt : List Teacher) :
    Except ScheduleFailure (List Teacher) :=
  match o with
  | none => .error .panic
  | some (.arr vector) => .ok (parse_teacher_json vector)
  | some _ => .ok dflt

/-- As `getFieldTeachers` for the `groups` array. -/
def getFieldGroups (o : Option Json) (dflt : List Group) :
    Except ScheduleFailure (List Group) :=
  match o with
  | none => .error .panic
  | some (.arr vector) => .ok (parse_group_json vector)
  | some _ => .ok dflt

/-- `parse_subject_json` of `schedule.rs` (lines 125-141): fresh locals
(empty strings, id 0), then `obj.get("brief").unwrap()` /
`obj.get("id").unwrap()` / `obj.get("title").unwrap()` — each absent key
panics; a wrong-typed present key leaves the local's default; a numeric id
uses `as_i64().unwrap_or(0)` narrowed `as i32`. -/
def parse_subject_json (obj : List (String × Json)) :
    Except ScheduleFailure Subject := do
  let brief ← getFieldStr (jGet obj "brief") ""
  let id ← match jGet obj "id" with
    | none => Except.error ScheduleFailure.panic
    | some (.num o) => Except.ok (toI32 (o.getD 0))
    | some _ => Except.ok 0
  let title ← getFieldStr (jGet obj "title") ""
  return ⟨brief, id, title⟩

/-- The statement `if let Value::Object(obj) = obj.remove("subject").unwrap()
{ subject = parse_subject_json(obj) }`. -/
def getFieldSubject (o : Option Json) (dflt : Subject) :
    Except ScheduleFailure Subject :=
  match o with
  | none => .error .panic
  | some (.obj obj) => parse_subject_json obj
  | some _ => .ok dflt

/-- The mutable locals of the `get_schedule` decoding loop (`schedule.rs`
lines 67-74), shared across iterations. -/
structure SchedState where
  lecture_room : String
  start_time : Int
  end_time : Int
  number_pair : Int
  lecture_type : String
  teachers : List Teacher
  groups : List Group
  subject : Subject

/-- The initial loop state of `get_schedule`: empty strings, zero times, an
empty pair number, empty teacher/group lists and the default subject. -/
def initSchedState : SchedState :=
  ⟨"", 0, 0, 0, "", [], [], Subject.default⟩

/-- The decoding loop of `get_schedule` (`schedule.rs` lines 76-113): for
each object element the eight fields are read in source order (each
`unwrap()` of an absent key panicking, wrong-typed present fields leaving
the carried value), a `Period` is built from the accumulated timestamps with
`?`-propagation, and a `Lecture` is pushed; non-object elements are
skipped. -/
def scheduleLoop (st : SchedState) :
    List Json → Except ScheduleFailure (List Lecture)
  | [] => .ok []
  | .obj m :: rest => do
    let lecture_room ← getFieldStr (jGet m "auditory") st.lecture_room
    let start_time ← getFieldI64 (jGet m "startTime") st.start_time
    let end_time ← getFieldI64 (jGet m "endTime") st.end_time
    let number_pair ← getFieldU8 (jGet m "numberPair") st.number_pair
    let lecture_type ← getFieldStr (jGet m "type") st.lecture_type
    let teachers ← getFieldTeachers (jGet m "teachers") st.teachers
    let groups ← getFieldGroups (jGet m "groups") st.groups
    let subject ← getFieldSubject (jGet m "subject") st.subject
    let period ← (Period.from_timestamp start_time end_time).mapError
      ScheduleFailure.parseErr
    let tail ← scheduleLoop
      ⟨lecture_room, start_time, end_time, number_pair, lecture_type,
        teachers, groups, subject⟩ rest
    return ⟨lecture_room, period, number_pair, lecture_type, teachers,
      groups, subject⟩ :: tail
  | _ :: rest => scheduleLoop st rest

/-- The response-decoding part of `get_schedule` (`schedule.rs` lines
64-118), applied to the JSON value the envelope handler returned (URL
building and the network call are the out-of-scope transport): a non-array
top level is `InvalidReturn`, otherwise the decoding loop runs from the
initial state. -/
def get_schedule (response : Json) : Except ScheduleFailure (List Lecture) :=
  match response with
  | .arr vector => scheduleLoop initSchedState vector
  | _ => .error .invalidReturn

/-- Claim C2: for every HTTP GET outcome, `get_wrapper` classifies exactly
as specified — transport failure gives `GetFailed`; any non-200 status gives
`BadResponse` with the status's canonical reason phrase and code, in
particular 404 gives `BadResponse("Not Found", 404)`; a 200 with a non-JSON
body gives `NotJson`; and a 200 with a JSON body returns the decoded
value. -/
theorem C2_response_envelope (status : Nat) (body : Option Json) (j : Json) :
    get_wrapper .failure = .error .GetFailed ∧
    (status ≠ 200 →
      get_wrapper (.response status body) =
        .error (.BadResponse ((canonicalReason status).getD "") status)) ∧
    get_wrapper (.response 200 none) = .error .NotJson ∧
    get_wrapper (.response 200 (some j)) = .ok j ∧
    get_wrapper (.response 404 body) = .error (.BadResponse "Not Found" 404) := by
  refine ⟨rfl, fun h => ?_, rfl, rfl, ?_⟩
  · simp [get_wrapper, h]
  · simp [get_wrapper, canonicalReason]

/-- Witness for C2 at a concrete non-200 input: status 404 with an empty
body yields `BadResponse("Not Found", 404)`. -/
theorem C2_response_envelope_witness :
    get_wrapper (.response 404 none) =
      .error (.BadResponse ((canonicalReason 404).getD "") 404) :=
  (C2_response_envelope 404 none Json.null).2.1 (by decide)

/-- Claim C4 (code bug): when the scan of `find_exect_lecture_room` matches
nothing, the source raises `FindError::InvalidGroupName(input)` — not the
resource-specific `InvalidLectureRoomName(input)` its own doc comment
(`lecture_rooms.rs` lines 130-133) promises.  Evaluated at the failing
input: the name `"філія"` against an empty room list. -/
theorem C4_exact_room_error_kind :
    find_exect_lecture_room "філія" [] =
      .error (FindError.InvalidGroupName "філія") ∧
    find_exect_lecture_room "філія" [] ≠
      .error (FindError.InvalidLectureRoomName "філія") := by
  exact ⟨rfl, by decide⟩

/-- Claim C5: `day_from("2023-01-02")` succeeds with a period running from
2023-01-02T00:00:00.000 to 2023-01-02T23:59:59.999 in the fixed Eastern
European timezone. -/
theorem C5_day_from :
    ∃ p, Period.day_from "2023-01-02" = .ok p ∧
      p.start_time.tz = .europeKiev ∧
      civilView p.start_time = (2023, 1, 2, 0, 0, 0, 0) ∧
      p.end_time.tz = .europeKiev ∧
      civilView p.end_time = (2023, 1, 2, 23, 59, 59, 999) := by
  refine ⟨⟨⟨1672610400000, .europeKiev⟩, ⟨1672696799999, .europeKiev⟩⟩,
    ?_, rfl, ?_, rfl, ?_⟩ <;> decide

/-- Follows the claim wording of C3 for the `id` field, as amended: the
value of a present number field is used narrowed to signed 32-bit (`0` when
not representable as `i64`); otherwise the value carried over from the
previous iteration's accumulator is retained. -/
def specIdPolicy (m : List (String × Json)) (prev : Int) : Int :=
  match jGet m "id" with
  | some (.num o) => toI32 (o.getD 0)
  | _ => prev

/-- Follows the claim wording of C3 for the `name` field: a present string
field is used; otherwise the carried value is retained. -/
def specNamePolicy (m : List (String × Json)) (prev : String) : String :=
  match jGet m "name" with
  | some (.str st) => st
  | _ => prev

/-- Follows the claim wording of C3: exactly one `Group` record per object
element, in input order, each field given by its per-field policy over the
accumulator carried from earlier object elements, starting from the type
defaults `0` / `""`. -/
def groupDecodeSpec (prev : Int × String) : List Json → List Group
  | [] => []
  | .obj m :: rest =>
    let cur := (specIdPolicy m prev.1, specNamePolicy m prev.2)
    ⟨cur.1, cur.2⟩ :: groupDecodeSpec cur rest
  | _ :: rest => groupDecodeSpec prev rest

theorem parseGroupLoop_spec (v : List Json) : ∀ id name,
    parseGroupLoop id name v = groupDecodeSpec (id, name) v ∧
    (parseGroupLoop id name v).length = v.countP isObjB := by
  induction v with
  | nil => intro id name; exact ⟨rfl, rfl⟩
  | cons e rest ih =>
    intro id name
    cases e with
    | obj m =>
      simp only [parseGroupLoop, groupDecodeSpec, specIdPolicy, specNamePolicy,
        List.countP_cons, isObjB, List.length_cons]
      refine ⟨?_, ?_⟩
      · exact congrArg _ (ih _ _).1
      · rw [(ih _ _).2]; simp
    | null => simpa [parseGroupLoop, groupDecodeSpec, List.countP_cons, isObjB]
        using ih id name
    | bool b => simpa [parseGroupLoop, groupDecodeSpec, List.countP_cons, isObjB]
        using ih id name
    | num o => simpa [parseGroupLoop, groupDecodeSpec, List.countP_cons, isObjB]
        using ih id name
    | str s => simpa [parseGroupLoop, groupDecodeSpec, List.countP_cons, isObjB]
        using ih id name
    | arr l => simpa [parseGroupLoop, groupDecodeSpec, List.countP_cons, isObjB]
        using ih id name

/-- Claim C3 counterexample: an `id` of `2147483648` (within `i64`, above
`i32::MAX`) is present with the expected JSON type, yet the produced record
carries `-2147483648` — the `as i32` cast of `groups.rs` line 22 wraps, so
the field's value is not used as-is. -/
theorem C3_counterexample :
    parse_group_json
        [Json.obj [("id", Json.num (some 2147483648)), ("name", Json.str "x")]] =
      [⟨-2147483648, "x"⟩] ∧
    parse_group_json
        [Json.obj [("id", Json.num (some 2147483648)), ("name", Json.str "x")]] ≠
      [⟨2147483648, "x"⟩] := by
  exact ⟨by decide, by decide⟩

/-- Claim C3 (amended): the Group decoder yields exactly one record per
object element, preserving input order; a present `name` string is used and
a present `id` number is used narrowed to signed 32-bit (`0` when not
`i64`-representable); an absent or wrong-typed field retains the value
carried from the previous iteration's accumulator, starting from the type
defaults `0` / `""`. -/
theorem C3_group_decoder (vector : List Json) :
    parse_group_json vector = groupDecodeSpec (0, "") vector ∧
    (parse_group_json vector).length = vector.countP isObjB :=
  parseGroupLoop_spec vector 0 ""

/-- Claim C6: `Period::from_timestamp(1704146400, 1704232800)` succeeds,
both instants are normalized to the fixed Eastern European timezone, and the
end is exactly 86400 seconds after the start. -/
theorem C6_from_timestamp :
    ∃ p, Period.from_timestamp 1704146400 1704232800 = .ok p ∧
      p.start_time.tz = .europeKiev ∧
      p.end_time.tz = .europeKiev ∧
      p.end_time.epochMillis - p.start_time.epochMillis = 86400 * 1000 := by
  refine ⟨⟨⟨1704146400000, .europeKiev⟩, ⟨1704232800000, .europeKiev⟩⟩,
    ?_, rfl, rfl, ?_⟩ <;> decide

theorem findTeacherLoop_mem (name : String) (ts : List Teacher) :
    ∀ res, findTeacherLoop name ts = .ok res →
      ∀ t ∈ res, find name t.full_name = .ok true := by
  induction ts with
  | nil =>
    intro res h t ht
    simp only [findTeacherLoop] at h
    cases h
    simp at ht
  | cons u rest ih =>
    intro res h t ht
    simp only [findTeacherLoop] at h
    cases hf : find name u.full_name with
    | error e => rw [hf] at h; cases h
    | ok b =>
      rw [hf] at h
      cases b with
      | true =>
        cases hr : findTeacherLoop name rest with
        | error e => rw [hr] at h; cases h
        | ok res' =>
          rw [hr] at h
          simp only [Except.map] at h
          cases h
          rcases List.mem_cons.mp ht with h1 | h1
          · subst h1; exact hf
          · exact ih res' hr t h1
      | false => exact ih res h t ht

theorem find_exect_teacher_short (name : String) (ts : List Teacher) :
    ∀ t, find_exect_teacher name ts = .ok t →
      rustToLowercase name = rustToLowercase t.short_name := by
  induction ts with
  | nil => intro t h; cases h
  | cons u rest ih =>
    intro t h
    simp only [find_exect_teacher] at h
    by_cases he : rustToLowercase name = rustToLowercase u.short_name
    · rw [if_pos he] at h
      cases h
      exact he
    · rw [if_neg he] at h
      exact ih t h

theorem find_exect_teacher_eq_findq (name : String) (ts : List Teacher) :
    find_exect_teacher name ts =
      match ts.find?
          (fun t => decide (rustToLowercase name = rustToLowercase t.short_name)) with
      | some t => .ok t
      | none => .error (.InvalidTeacherName name) := by
  induction ts with
  | nil => rfl
  | cons u rest ih =>
    simp only [find_exect_teacher, List.find?_cons]
    by_cases he : rustToLowercase name = rustToLowercase u.short_name
    · rw [if_pos he]
      simp [he]
    · rw [if_neg he]
      simp only [he, decide_False]
      exact ih

/-- Claim C9 counterexample: the teacher
`{id 1, short_name "ИВАНОВ", full_name "иванов"}` has `full_name` equal to
the input `"иванов"` and a `short_name` that differs from it, yet
`find_exect_teacher` returns this teacher, because the lower-cased
`short_name` matches the lower-cased input. -/
theorem C9_counterexample :
    (Teacher.mk 1 "ИВАНОВ" "иванов").full_name = "иванов" ∧
    (Teacher.mk 1 "ИВАНОВ" "иванов").short_name ≠ "иванов" ∧
    find_exect_teacher "иванов" [Teacher.mk 1 "ИВАНОВ" "иванов"] =
      .ok (Teacher.mk 1 "ИВАНОВ" "иванов") := by
  exact ⟨rfl, by decide, by decide⟩

/-- Claim C9 (amended): the fuzzy lookup `find_teacher` tests the needle
only against `full_name` — every returned teacher `find`-matches on
`full_name`; the exact lookup `find_exect_teacher` is exactly a first-match
scan of lower-cased `short_name` against the lower-cased input; hence a
teacher whose `full_name` equals the input but whose `short_name` differs
case-insensitively from it is never returned by `find_exect_teacher`. -/
theorem C9_teacher_lookup_fields :
    (∀ name ts res, find_teacher name ts = .ok res →
      ∀ t ∈ res, find name t.full_name = .ok true) ∧
    (∀ name ts, find_exect_teacher name ts =
      match ts.find?
          (fun t => decide (rustToLowercase name = rustToLowercase t.short_name)) with
      | some t => .ok t
      | none => .error (.InvalidTeacherName name)) ∧
    (∀ name ts t, t.full_name = name →
      rustToLowercase t.short_name ≠ rustToLowercase name →
      find_exect_teacher name ts ≠ .ok t) := by
  refine ⟨?_, find_exect_teacher_eq_findq, ?_⟩
  · intro name ts res h t ht
    simp only [find_teacher] at h
    cases hl : findTeacherLoop name ts with
    | error e => rw [hl] at h; cases h
    | ok res' =>
      rw [hl] at h
      dsimp only at h
      by_cases hres : res'.isEmpty
      · rw [if_pos hres] at h; cases h
      · rw [if_neg hres] at h
        cases h
        exact findTeacherLoop_mem name ts _ hl t ht
  · intro name ts t hfull hshort h
    exact hshort (find_exect_teacher_short name ts t h).symm

/-- Witness for C9 at a concrete input: the teacher
`{id 1, short_name "АБВ", full_name "х"}` has `full_name` equal to the input
`"х"` and a case-insensitively different `short_name`, so the exact lookup
never returns it. -/
theorem C9_teacher_lookup_fields_witness :
    find_exect_teacher "х" [Teacher.mk 1 "АБВ" "х"] ≠
      .ok (Teacher.mk 1 "АБВ" "х") :=
  C9_teacher_lookup_fields.2.2 "х" [Teacher.mk 1 "АБВ" "х"]
    (Teacher.mk 1 "АБВ" "х") (by decide) (by decide)

/-- Conditions of claim C1 as amended, per object element of the schedule
payload: all eight expected keys are present; `startTime` and `endTime` hold
`i64` numbers whose decimal rendering the timestamp parser accepts; a
numeric `numberPair` is `i64`-representable; and a `subject` that is an
object carries the `brief`/`id`/`title` keys.  Non-object elements are
unconstrained (the loop skips them). -/
def goodScheduleElem : Json → Bool
  | .obj m =>
    (jGet m "auditory").isSome &&
    (match jGet m "startTime" with
      | some (.num (some n)) => (dateparserParse (toString n)).isSome
      | _ => false) &&
    (match jGet m "endTime" with
      | some (.num (some n)) => (dateparserParse (toString n)).isSome
      | _ => false) &&
    (match jGet m "numberPair" with
      | some (.num o) => o.isSome
      | some _ => true
      | none => false) &&
    (jGet m "type").isSome &&
    (jGet m "teachers").isSome &&
    (jGet m "groups").isSome &&
    (match jGet m "subject" with
      | some (.obj ms) =>
        (jGet ms "brief").isSome && (jGet ms "id").isSome &&
          (jGet ms "title").isSome
      | some _ => true
      | none => false)
  | _ => true

theorem getFieldStr_ok (v : Json) (dflt : String) :
    ∃ s, getFieldStr (some v) dflt = .ok s := by
  cases v <;> exact ⟨_, rfl⟩

theorem getFieldU8_ok (v : Json) (dflt : Int)
    (h : (match v with
      | .num o => o.isSome
      | _ => true) = true) :
    ∃ n, getFieldU8 (some v) dflt = .ok n := by
  cases v with
  | num o => cases o with
    | none => simp at h
    | some k => exact ⟨_, rfl⟩
  | null => exact ⟨_, rfl⟩
  | bool b => exact ⟨_, rfl⟩
  | str s => exact ⟨_, rfl⟩
  | arr l => exact ⟨_, rfl⟩
  | obj m => exact ⟨_, rfl⟩

theorem getFieldTeachers_ok (v : Json) (dflt : List Teacher) :
    ∃ l, getFieldTeachers (some v) dflt = .ok l := by
  cases v <;> exact ⟨_, rfl⟩

theorem getFieldGroups_ok (v : Json) (dflt : List Group) :
    ∃ l, getFieldGroups (some v) dflt = .ok l := by
  cases v <;> exact ⟨_, rfl⟩

theorem bindExcept_ok {ε α β : Type} (x : α) (f : α → Except ε β) :
    (Except.ok x : Except ε α) >>= f = f x :=
  rfl

theorem pureExcept {ε α : Type} (x : α) :
    (pure x : Except ε α) = Except.ok x :=
  rfl

theorem parse_subject_json_ok (ms : List (String × Json))
    (hb : (jGet ms "brief").isSome = true)
    (hi : (jGet ms "id").isSome = true)
    (ht : (jGet ms "title").isSome = true) :
    ∃ s, parse_subject_json ms = .ok s := by
  obtain ⟨vb, hvb⟩ := Option.isSome_iff_exists.mp hb
  obtain ⟨vi, hvi⟩ := Option.isSome_iff_exists.mp hi
  obtain ⟨vt, hvt⟩ := Option.isSome_iff_exists.mp ht
  obtain ⟨sb, hsb⟩ := getFieldStr_ok vb ""
  obtain ⟨st', hst⟩ := getFieldStr_ok vt ""
  unfold parse_subject_json
  rw [hvb, hsb, hvi, hvt]
  cases vi with
  | num o =>
    exact ⟨⟨sb, toI32 (o.getD 0), st'⟩,
      by simp only [hst, bindExcept_ok, pureExcept]⟩
  | null => exact ⟨⟨sb, 0, st'⟩, by simp only [hst, bindExcept_ok, pureExcept]⟩
  | bool b => exact ⟨⟨sb, 0, st'⟩, by simp only [hst, bindExcept_ok, pureExcept]⟩
  | str s => exact ⟨⟨sb, 0, st'⟩, by simp only [hst, bindExcept_ok, pureExcept]⟩
  | arr l => exact ⟨⟨sb, 0, st'⟩, by simp only [hst, bindExcept_ok, pureExcept]⟩
  | obj m => exact ⟨⟨sb, 0, st'⟩, by simp only [hst, bindExcept_ok, pureExcept]⟩

theorem getFieldSubject_ok (v : Json) (dflt : Subject)
    (h : (match v with
      | .obj ms =>
        (jGet ms "brief").isSome && (jGet ms "id").isSome &&
          (jGet ms "title").isSome
      | _ => true) = true) :
    ∃ s, getFieldSubject (some v) dflt = .ok s := by
  cases v with
  | obj ms =>
    simp only [Bool.and_eq_true] at h
    obtain ⟨s, hs⟩ := parse_subject_json_ok ms h.1.1 h.1.2 h.2
    exact ⟨s, hs⟩
  | null => exact ⟨_, rfl⟩
  | bool b => exact ⟨_, rfl⟩
  | num o => exact ⟨_, rfl⟩
  | str s => exact ⟨_, rfl⟩
  | arr l => exact ⟨_, rfl⟩

theorem from_timestamp_ok (a b : Int)
    (ha : (dateparserParse (toString a)).isSome = true)
    (hb : (dateparserParse (toString b)).isSome = true) :
    ∃ p, Period.from_timestamp a b = .ok p := by
  obtain ⟨pa, hpa⟩ := Option.isSome_iff_exists.mp ha
  obtain ⟨pb, hpb⟩ := Option.isSome_iff_exists.mp hb
  exact ⟨_, by simp only [Period.from_timestamp]; rw [hpa, hpb]⟩

theorem scheduleLoop_good (v : List Json) : ∀ st,
    (∀ j ∈ v, goodScheduleElem j = true) →
    ∃ l, scheduleLoop st v = .ok l ∧ l.length = v.countP isObjB := by
  induction v with
  | nil => intro st _; exact ⟨[], rfl, rfl⟩
  | cons e rest ih =>
    intro st h
    have he := h e (List.mem_cons_self e rest)
    have hrest : ∀ j ∈ rest, goodScheduleElem j = true :=
      fun j hj => h j (List.mem_cons_of_mem e hj)
    cases e with
    | obj m =>
      simp only [goodScheduleElem, Bool.and_eq_true] at he
      obtain ⟨⟨⟨⟨⟨⟨⟨hA, hS⟩, hE⟩, hN⟩, hT⟩, hTe⟩, hG⟩, hSub⟩ := he
      obtain ⟨va, hva⟩ := Option.isSome_iff_exists.mp hA
      obtain ⟨room, hroom⟩ := getFieldStr_ok va st.lecture_room
      have hS' : ∃ n, jGet m "startTime" = some (.num (some n)) ∧
          (dateparserParse (toString n)).isSome = true := by
        cases hs : jGet m "startTime" with
        | none => rw [hs] at hS; simp at hS
        | some vs =>
          rw [hs] at hS
          cases vs with
          | num o =>
            cases o with
            | none => simp at hS
            | some n => exact ⟨n, rfl, hS⟩
          | null => simp at hS
          | bool b => simp at hS
          | str s => simp at hS
          | arr l => simp at hS
          | obj mm => simp at hS
      have hE' : ∃ n, jGet m "endTime" = some (.num (some n)) ∧
          (dateparserParse (toString n)).isSome = true := by
        cases hs : jGet m "endTime" with
        | none => rw [hs] at hE; simp at hE
        | some vs =>
          rw [hs] at hE
          cases vs with
          | num o =>
            cases o with
            | none => simp at hE
            | some n => exact ⟨n, rfl, hE⟩
          | null => simp at hE
          | bool b => simp at hE
          | str s => simp at hE
          | arr l => simp at hE
          | obj mm => simp at hE
      obtain ⟨ns, hns, hnsp⟩ := hS'
      obtain ⟨ne, hne, hnep⟩ := hE'
      have hN' : ∃ vn, jGet m "numberPair" = some vn ∧
          (match vn with
            | .num o => o.isSome
            | _ => true) = true := by
        cases hs : jGet m "numberPair" with
        | none => rw [hs] at hN; simp at hN
        | some vn =>
          rw [hs] at hN
          refine ⟨vn, rfl, ?_⟩
          cases vn <;> first | rfl | exact hN
      obtain ⟨vn, hvn, hvng⟩ := hN'
      obtain ⟨np, hnp⟩ := getFieldU8_ok vn st.number_pair hvng
      obtain ⟨vt, hvt⟩ := Option.isSome_iff_exists.mp hT
      obtain ⟨ltype, hltype⟩ := getFieldStr_ok vt st.lecture_type
      obtain ⟨vte, hvte⟩ := Option.isSome_iff_exists.mp hTe
      obtain ⟨tchs, htchs⟩ := getFieldTeachers_ok vte st.teachers
      obtain ⟨vg, hvg⟩ := Option.isSome_iff_exists.mp hG
      obtain ⟨grps, hgrps⟩ := getFieldGroups_ok vg st.groups
      have hSub' : ∃ vs, jGet m "subject" = some vs ∧
          (match vs with
            | .obj ms =>
              (jGet ms "brief").isSome && (jGet ms "id").isSome &&
                (jGet ms "title").isSome
            | _ => true) = true := by
        cases hs : jGet m "subject" with
        | none => rw [hs] at hSub; simp at hSub
        | some vs =>
          rw [hs] at hSub
          refine ⟨vs, rfl, ?_⟩
          cases vs <;> first | rfl | exact hSub
      obtain ⟨vs, hvs, hvsg⟩ := hSub'
      obtain ⟨subj, hsubj⟩ := getFieldSubject_ok vs st.subject hvsg
      obtain ⟨period, hperiod⟩ := from_timestamp_ok ns ne hnsp hnep
      obtain ⟨tail, htail, hlen⟩ := ih
        ⟨room, ns, ne, np, ltype, tchs, grps, subj⟩ hrest
      refine ⟨⟨room, period, np, ltype, tchs, grps, subj⟩ :: tail, ?_, ?_⟩
      · simp only [scheduleLoop, hva, hroom, hns, hne, hvn, hnp, hvt, hltype,
          hvte, htchs, hvg, hgrps, hvs, hsubj, hperiod, htail, getFieldI64,
          bindExcept_ok, pureExcept, Except.mapError]
      · simp only [List.length_cons, List.countP_cons, isObjB, hlen]
        simp
    | null => simpa [scheduleLoop, List.countP_cons, isObjB] using ih st hrest
    | bool b => simpa [scheduleLoop, List.countP_cons, isObjB] using ih st hrest
    | num o => simpa [scheduleLoop, List.countP_cons, isObjB] using ih st hrest
    | str s => simpa [scheduleLoop, List.countP_cons, isObjB] using ih st hrest
    | arr l => simpa [scheduleLoop, List.countP_cons, isObjB] using ih st hrest

/-- Claim C1 counterexample: an array whose single element is an object
carrying every expected field well-typed except the absent `auditory` — one
missing field makes the whole decode abort with a panic
(`obj.get("auditory").unwrap()`, `schedule.rs` line 78) instead of
producing a `Lecture` for the element. -/
theorem C1_counterexample :
    get_schedule (.arr [Json.obj
      [("startTime", Json.num (some 1704146400)),
       ("endTime", Json.num (some 1704150000)),
       ("numberPair", Json.num (some 1)),
       ("type", Json.str "Лк"),
       ("teachers", Json.arr []),
       ("groups", Json.arr []),
       ("subject", Json.obj [("brief", Json.str "б"),
         ("id", Json.num (some 7)), ("title", Json.str "т")])]]) =
      .error .panic := by
  decide

/-- Claim C1 (amended): the schedule decoder degrades gracefully only on
wrong-typed *present* fields; an absent field panics.  Whenever every object
element of the array carries all eight expected keys, with `startTime` and
`endTime` holding parseable `i64` epoch numbers, any numeric `numberPair`
`i64`-representable, and any `subject` object carrying
`brief`/`id`/`title`, the decode succeeds with exactly one `Lecture` per
object element (wrong-typed fields among the rest merely retain carried or
default values). -/
theorem C1_schedule_decoder (v : List Json)
    (h : ∀ j ∈ v, goodScheduleElem j = true) :
    ∃ l, get_schedule (.arr v) = .ok l ∧ l.length = v.countP isObjB :=
  scheduleLoop_good v initSchedState h

/-- Witness for C1 at a concrete input: one element with all eight keys,
whose `numberPair` is wrong-typed (a string) and therefore retained from the
default, still yields exactly one `Lecture`. -/
theorem C1_schedule_decoder_witness :
    ∃ l, get_schedule (.arr [Json.obj
      [("auditory", Json.str "287"),
       ("startTime", Json.num (some 1704146400)),
       ("endTime", Json.num (some 1704150000)),
       ("numberPair", Json.str "oops"),
       ("type", Json.str "Лк"),
       ("teachers", Json.arr []),
       ("groups", Json.arr []),
       ("subject", Json.obj [("brief", Json.str "б"),
         ("id", Json.num (some 7)), ("title", Json.str "т")])]]) = .ok l ∧
      l.length = ([Json.obj
      [("auditory", Json.str "287"),
       ("startTime", Json.num (some 1704146400)),
       ("endTime", Json.num (some 1704150000)),
       ("numberPair", Json.str "oops"),
       ("type", Json.str "Лк"),
       ("teachers", Json.arr []),
       ("groups", Json.arr []),
       ("subject", Json.obj [("brief", Json.str "б"),
         ("id", Json.num (some 7)), ("title", Json.str "т")])]] : List Json).countP
        isObjB :=
  C1_schedule_decoder _ (by decide)

/-- Characterwise relabelling of literal tokens. -/
def mapTok (f : Char → Char) : Tok → Tok
  | .lit c => .lit (f c)
  | t => t

/-- Characterwise relabelling of regex literals. -/
def mapRx (f : Char → Char) : Rx → Rx
  | .emp => .emp
  | .eps => .eps
  | .lit c => .lit (f c)
  | .dot => .dot
  | .alt a b => .alt (mapRx f a) (mapRx f b)
  | .cat a b => .cat (mapRx f a) (mapRx f b)
  | .star a => .star (mapRx f a)

theorem tokOf_lower (c : Char) :
    tokOf (toLowerChar c) = mapTok toLowerChar (tokOf c) := by
  by_cases h1 : c = '('
  · subst h1; rfl
  have g1 : toLowerChar c ≠ '(' :=
    fun he => h1 ((toLowerChar_eq_iff (by decide)).mp he)
  by_cases h2 : c = ')'
  · subst h2; rfl
  have g2 : toLowerChar c ≠ ')' :=
    fun he => h2 ((toLowerChar_eq_iff (by decide)).mp he)
  by_cases h3 : c = '|'
  · subst h3; rfl
  have g3 : toLowerChar c ≠ '|' :=
    fun he => h3 ((toLowerChar_eq_iff (by decide)).mp he)
  by_cases h4 : c = '*'
  · subst h4; rfl
  have g4 : toLowerChar c ≠ '*' :=
    fun he => h4 ((toLowerChar_eq_iff (by decide)).mp he)
  by_cases h5 : c = '+'
  · subst h5; rfl
  have g5 : toLowerChar c ≠ '+' :=
    fun he => h5 ((toLowerChar_eq_iff (by decide)).mp he)
  by_cases h6 : c = '?'
  · subst h6; rfl
  have g6 : toLowerChar c ≠ '?' :=
    fun he => h6 ((toLowerChar_eq_iff (by decide)).mp he)
  by_cases h7 : c = '.'
  · subst h7; rfl
  have g7 : toLowerChar c ≠ '.' :=
    fun he => h7 ((toLowerChar_eq_iff (by decide)).mp he)
  unfold tokOf
  rw [if_neg g1, if_neg g2, if_neg g3, if_neg g4, if_neg g5, if_neg g6,
    if_neg g7, if_neg h1, if_neg h2, if_neg h3, if_neg h4, if_neg h5,
    if_neg h6, if_neg h7]
  rfl

theorem tokenize_lower : ∀ fuel (l : List Char),
    tokenizeRx fuel (l.map toLowerChar) =
      (tokenizeRx fuel l).map (List.map (mapTok toLowerChar)) := by
  intro fuel
  induction fuel with
  | zero => intro l; rfl
  | succ f ih =>
    intro l
    cases l with
    | nil => rfl
    | cons c rest =>
      simp only [List.map_cons, tokenizeRx]
      by_cases hb : c = '\\'
      · subst hb
        rw [if_pos (by decide : toLowerChar '\\' = '\\'), if_pos rfl]
        cases rest with
        | nil => rfl
        | cons d rest2 =>
          simp only [List.map_cons]
          rw [ih rest2]
          cases tokenizeRx f rest2 <;> rfl
      · have hb2 : toLowerChar c ≠ '\\' :=
          fun he => hb ((toLowerChar_eq_iff (by decide)).mp he)
        rw [if_neg hb2, if_neg hb, ih rest, tokOf_lower c]
        cases tokenizeRx f rest <;> rfl

theorem lazyOpt_map (f : Char → Char) (r : Rx) (ts : List Tok) :
    lazyOpt (mapRx f r) (ts.map (mapTok f)) =
      (mapRx f (lazyOpt r ts).1, (lazyOpt r ts).2.map (mapTok f)) := by
  cases ts with
  | nil => rfl
  | cons t rest => cases t <;> rfl

theorem applyQuants_map (f : Char → Char) (r : Rx) (ts : List Tok) :
    applyQuants (mapRx f r) (ts.map (mapTok f)) =
      (mapRx f (applyQuants r ts).1, (applyQuants r ts).2.map (mapTok f)) := by
  cases ts with
  | nil => rfl
  | cons t rest =>
    cases t with
    | star => exact lazyOpt_map f (.star r) rest
    | plus => exact lazyOpt_map f (.cat r (.star r)) rest
    | quest => exact lazyOpt_map f (.alt r .eps) rest
    | lparen => rfl
    | rparen => rfl
    | bar => rfl
    | dot => rfl
    | lit c => rfl

theorem parseRx_map (f : Char → Char) : ∀ fuel mode (ts : List Tok),
    parseRx fuel mode (ts.map (mapTok f)) =
      (parseRx fuel mode ts).map
        (fun p => (mapRx f p.1, p.2.map (mapTok f))) := by
  intro fuel
  induction fuel with
  | zero => intro mode ts; rfl
  | succ fl ih =>
    intro mode ts
    cases mode with
    | alt =>
      simp only [parseRx]
      rw [ih .cat ts]
      cases h : parseRx fl .cat ts with
      | none => rfl
      | some p =>
        obtain ⟨r, ts1⟩ := p
        cases ts1 with
        | nil => rfl
        | cons t rest =>
          cases t with
          | bar =>
            simp only [Option.map_some', List.map_cons, mapTok]
            rw [ih .alt rest]
            cases parseRx fl .alt rest <;> rfl
          | lparen => rfl
          | rparen => rfl
          | star => rfl
          | plus => rfl
          | quest => rfl
          | dot => rfl
          | lit c => rfl
    | cat =>
      cases ts with
      | nil => rfl
      | cons t rest =>
        cases t with
        | rparen => rfl
        | bar => rfl
        | lparen =>
          simp only [parseRx, List.map_cons, mapTok]
          have e : Tok.lparen :: List.map (mapTok f) rest =
              List.map (mapTok f) (Tok.lparen :: rest) := rfl
          rw [e, ih .rep (.lparen :: rest)]
          cases h1 : parseRx fl .rep (.lparen :: rest) with
          | none => rfl
          | some p =>
            obtain ⟨r, ts1⟩ := p
            simp only [Option.map_some']
            rw [ih .cat ts1]
            cases parseRx fl .cat ts1 <;> rfl
        | star =>
          simp only [parseRx, List.map_cons, mapTok]
          have e : Tok.star :: List.map (mapTok f) rest =
              List.map (mapTok f) (Tok.star :: rest) := rfl
          rw [e, ih .rep (.star :: rest)]
          cases h1 : parseRx fl .rep (.star :: rest) with
          | none => rfl
          | some p =>
            obtain ⟨r, ts1⟩ := p
            simp only [Option.map_some']
            rw [ih .cat ts1]
            cases parseRx fl .cat ts1 <;> rfl
        | plus =>
          simp only [parseRx, List.map_cons, mapTok]
          have e : Tok.plus :: List.map (mapTok f) rest =
              List.map (mapTok f) (Tok.plus :: rest) := rfl
          rw [e, ih .rep (.plus :: rest)]
          cases h1 : parseRx fl .rep (.plus :: rest) with
          | none => rfl
          | some p =>
            obtain ⟨r, ts1⟩ := p
            simp only [Option.map_some']
            rw [ih .cat ts1]
            cases parseRx fl .cat ts1 <;> rfl
        | quest =>
          simp only [parseRx, List.map_cons, mapTok]
          have e : Tok.quest :: List.map (mapTok f) rest =
              List.map (mapTok f) (Tok.quest :: rest) := rfl
          rw [e, ih .rep (.quest :: rest)]
          cases h1 : parseRx fl .rep (.quest :: rest) with
          | none => rfl
          | some p =>
            obtain ⟨r, ts1⟩ := p
            simp only [Option.map_some']
            rw [ih .cat ts1]
            cases parseRx fl .cat ts1 <;> rfl
        | dot =>
          simp only [parseRx, List.map_cons, mapTok]
          have e : Tok.dot :: List.map (mapTok f) rest =
              List.map (mapTok f) (Tok.dot :: rest) := rfl
          rw [e, ih .rep (.dot :: rest)]
          cases h1 : parseRx fl .rep (.dot :: rest) with
          | none => rfl
          | some p =>
            obtain ⟨r, ts1⟩ := p
            simp only [Option.map_some']
            rw [ih .cat ts1]
            cases parseRx fl .cat ts1 <;> rfl
        | lit c =>
          simp only [parseRx, List.map_cons, mapTok]
          have e : Tok.lit (f c) :: List.map (mapTok f) rest =
              List.map (mapTok f) (Tok.lit c :: rest) := rfl
          rw [e, ih .rep (.lit c :: rest)]
          cases h1 : parseRx fl .rep (.lit c :: rest) with
          | none => rfl
          | some p =>
            obtain ⟨r, ts1⟩ := p
            simp only [Option.map_some']
            rw [ih .cat ts1]
            cases parseRx fl .cat ts1 <;> rfl
    | rep =>
      cases ts with
      | nil => rfl
      | cons t rest =>
        cases t with
        | lit c =>
          simp only [parseRx, List.map_cons, mapTok]
          rw [show Rx.lit (f c) = mapRx f (.lit c) from rfl,
            applyQuants_map f (.lit c) rest]
          rfl
        | dot =>
          simp only [parseRx, List.map_cons, mapTok]
          rw [show Rx.dot = mapRx f .dot from rfl, applyQuants_map f .dot rest]
          rfl
        | lparen =>
          simp only [parseRx, List.map_cons, mapTok]
          rw [ih .alt rest]
          cases h1 : parseRx fl .alt rest with
          | none => rfl
          | some p =>
            obtain ⟨r, ts1⟩ := p
            simp only [Option.map_some']
            cases ts1 with
            | nil => rfl
            | cons u rest2 =>
              cases u with
              | rparen =>
                simp only [List.map_cons, mapTok]
                rw [applyQuants_map f r rest2]
                rfl
              | lparen => rfl
              | bar => rfl
              | star => rfl
              | plus => rfl
              | quest => rfl
              | dot => rfl
              | lit c => rfl
        | rparen => rfl
        | bar => rfl
        | star => rfl
        | plus => rfl
        | quest => rfl

theorem regexCompile_lower (s : String) :
    regexCompile (rustToLowercase s) =
      (regexCompile s).map (mapRx toLowerChar) := by
  unfold regexCompile rustToLowercase
  have hdata : (String.mk (s.data.map toLowerChar)).data =
      s.data.map toLowerChar := rfl
  rw [hdata, List.length_map, tokenize_lower (s.data.length + 1) s.data]
  cases h : tokenizeRx (s.data.length + 1) s.data with
  | none => rfl
  | some toks =>
    simp only [Option.map_some']
    rw [List.length_map, parseRx_map toLowerChar (toks.length * 3 + 3) .alt toks]
    cases hp : parseRx (toks.length * 3 + 3) .alt toks with
    | none => rfl
    | some p =>
      obtain ⟨r, ts⟩ := p
      cases ts with
      | nil => rfl
      | cons u rest => rfl

theorem rustToLowercase_idem (s : String) :
    rustToLowercase (rustToLowercase s) = rustToLowercase s := by
  unfold rustToLowercase
  refine congrArg String.mk ?_
  show ((s.data.map toLowerChar).map toLowerChar) = s.data.map toLowerChar
  rw [List.map_map]
  exact List.map_congr_left fun a _ => toLowerChar_idem a

/-- Value of a successful `Except`, `none` on failure. -/
def okValue {ε α : Type} : Except ε α → Option α
  | .ok a => some a
  | .error _ => none

/-- Claim C7: `find` is case-insensitive — both Cyrillic examples hold, and
in general the match outcome (the `Ok` value, when no regex error occurs) is
unchanged by lower-casing the inputs, because `find` lower-cases both before
matching. -/
theorem C7_find_case_insensitive :
    find "ПІ" "пі-23" = .ok true ∧
    find "пі" "ПІ-23" = .ok true ∧
    ∀ needle hay, okValue (find needle hay) =
      okValue (find (rustToLowercase needle) (rustToLowercase hay)) := by
  refine ⟨by decide, by decide, ?_⟩
  intro needle hay
  unfold find
  rw [rustToLowercase_idem needle, rustToLowercase_idem hay]
  cases regexCompile (rustToLowercase needle) <;> rfl

/-- Claim C8: for every needle rejected by the regex compiler, `find` fails
with `InvalidRegexString` carrying that needle, for every haystack — the
compilation failure is never swallowed.  (The code compiles the lower-cased
needle; lower-casing does not affect syntactic validity, by
`regexCompile_lower`.) -/
theorem C8_invalid_regex (needle hay : String)
    (h : regexCompile needle = none) :
    find needle hay = .error (.InvalidRegexString needle) := by
  unfold find
  rw [regexCompile_lower needle, h]
  rfl

/-- Witness for C8 at the spec's own example: the unterminated group `"("`
fails to compile, and `find` propagates `InvalidRegexString("(")`. -/
theorem C8_invalid_regex_witness :
    regexCompile "(" = none ∧
      find "(" "пзпі-23-2" = .error (.InvalidRegexString "(") :=
  ⟨by decide, C8_invalid_regex "(" "пзпі-23-2" (by decide)⟩

theorem containsMatch_eps (l : List Char) : containsMatch .eps l = true := by
  cases l <;> rfl

theorem find_empty_needle (hay : String) : find "" hay = .ok true := by
  unfold find
  rw [show rustToLowercase "" = "" from rfl,
    show regexCompile "" = some Rx.eps from rfl]
  exact congrArg Except.ok (containsMatch_eps _)

theorem findGroupLoop_empty (groups : List Group) :
    findGroupLoop "" groups = .ok groups := by
  induction groups with
  | nil => rfl
  | cons g rest ih => simp only [findGroupLoop, find_empty_needle, ih, Except.map]

/-- Claim C10: the empty needle compiles to a regex that matches everywhere,
so `find("", haystack)` returns `Ok(true)` for every haystack; consequently
`find_group("")` on a non-empty fetched group list returns the entire list
instead of failing with `InvalidGroupName`. -/
theorem C10_empty_needle :
    (∀ hay, find "" hay = .ok true) ∧
    (∀ groups : List Group, groups ≠ [] → find_group "" groups = .ok groups) := by
  refine ⟨find_empty_needle, ?_⟩
  intro groups hne
  unfold find_group
  rw [findGroupLoop_empty]
  have hempty : groups.isEmpty = false := by
    cases groups with
    | nil => exact absurd rfl hne
    | cons g rest => rfl
  simp only [hempty]
  rfl

/-- Witness for C10 at a concrete input: the singleton group list
`[{id 1, name "пі-23"}]` is returned whole by `find_group("")`. -/
theorem C10_empty_needle_witness :
    find_group "" [Group.mk 1 "пі-23"] = .ok [Group.mk 1 "пі-23"] :=
  C10_empty_needle.2 [Group.mk 1 "пі-23"] (by decide)

end NureTools
